import Mathlib

/-!
Shallow embedding of `src/geomagio/edge/EdgeFactory.py` (class `EdgeFactory`).

Modelling conventions:
* Times (`obspy.core.UTCDateTime`) and sample spacings are exact rationals (`ℚ`),
  seconds since an arbitrary epoch.
* A trace's sample array is `List (Option ℚ)`; `none` stands for a missing sample,
  covering both the NaN sentinel and the masked-array representation (the code's
  `ma.masked_invalid` converts NaN to masked, which is the identity in this model).
* The numeric codec's `numpy.divide(..., 1000.0)` and `numpy.multiply(..., 1000.0)`
  operate on IEEE-754 binary64 values; their correctly-rounded results are modelled
  exactly by `roundF`, round-to-nearest (ties to even) to 53 significant bits, so
  the float rounding the codec claims turn on is preserved, not idealised away.
* Python exceptions are the explicit error type `PyError`:
  `TimeseriesFactoryException msg` for the `raise` statements in the file, and
  `UnboundLocalError v` for the places where the code reads a local variable that
  was never assigned (the missing `else` in `_put_trace`'s interval dispatch, and
  `forceout(seedname)` after a zero-iteration loop).
* The earthworm read client and the `RawInputClient` write transport are external
  collaborators: the read client is an oracle function parameter, and the write
  transport's observable actions (construction, send, forceout, close) are logged
  in a `WriteLog` so that resource claims can be stated.
* Python `or`-defaulting treats `None` and `""`/`[]` as falsy (`pyOr`, `pyOrList`),
  and `int()` / `ndarray.astype(int)` truncate toward zero (`pyInt`).
-/

namespace GeomagEdge

/-- Python exceptions that the embedded code can raise. -/
inductive PyError where
  | timeseriesFactoryException (msg : String)
  | unboundLocalError (v : String)
  deriving DecidableEq, Repr

/-- An obspy trace: channel id, start time, sample spacing `delta`, the sample
array (`none` = missing/NaN/masked), and the metadata slot written by
`_set_metadata` (observatory, channel, type, interval). -/
structure Trace where
  channel : String
  starttime : ℚ
  delta : ℚ
  data : List (Option ℚ)
  meta : Option (Option String × String × Option String × Option String)
  deriving DecidableEq, Repr

/-- obspy `stats.endtime`: `starttime + (npts - 1) * delta`. -/
def Trace.endtime (t : Trace) : ℚ :=
  t.starttime + (((t.data.length : ℤ) - 1 : ℤ) : ℚ) * t.delta

/-- Constructor-time state of an `EdgeFactory` used by the embedded methods. -/
structure Self where
  observatory : Option String
  channels : List String
  type : Option String
  interval : Option String
  locationCode : Option String
  deriving DecidableEq, Repr

/-- Python `a or b` on optional strings: `None` and the empty string are falsy. -/
def pyOr (a b : Option String) : Option String :=
  match a with
  | none => b
  | some s => if s = "" then b else some s

/-- Python `a or b` on lists (`None` is modelled as `[]`; both are falsy). -/
def pyOrList (a b : List String) : List String :=
  if a = [] then b else a

/-- Python `int()` / numpy `astype(int)`: truncation toward zero. -/
def pyInt (q : ℚ) : ℤ :=
  if 0 ≤ q then ⌊q⌋ else ⌈q⌉

/-- Python `str()` of an optional string (`None` prints as "None"),
used in exception messages built with `%s`. -/
def pyStr : Option String → String
  | none => "None"
  | some s => s

/-- Fuel-driven binary length: number of base-2 digits of `n` (0 for 0),
exact for `n < 2 ^ fuel`. -/
def bitlenAux : ℕ → ℕ → ℕ
  | 0, _ => 0
  | fuel + 1, n => if n = 0 then 0 else bitlenAux fuel (n / 2) + 1

/-- Binary length of a natural number, exact below `2 ^ 128` (far beyond any
value arising in this pipeline). -/
def bitlen (n : ℕ) : ℕ := bitlenAux 128 n

/-- Round a rational to the nearest integer, ties to even — the tie-breaking
rule of IEEE-754 round-to-nearest. -/
def roundNE (y : ℚ) : ℤ :=
  if y - (⌊y⌋ : ℚ) < 1 / 2 then ⌊y⌋
  else if 1 / 2 < y - (⌊y⌋ : ℚ) then ⌊y⌋ + 1
  else if ⌊y⌋ % 2 = 0 then ⌊y⌋ else ⌊y⌋ + 1

/-- Floor of the base-2 logarithm of a positive rational (the IEEE exponent
of `q`), via the binary lengths of numerator and denominator with a one-step
correction. -/
def floorLog2 (q : ℚ) : ℤ :=
  if (2 : ℚ) ^ ((bitlen q.num.natAbs : ℤ) - (bitlen q.den : ℤ)) ≤ q then
    (bitlen q.num.natAbs : ℤ) - (bitlen q.den : ℤ)
  else (bitlen q.num.natAbs : ℤ) - (bitlen q.den : ℤ) - 1

/-- IEEE-754 binary64 rounding (round to nearest, ties to even) of an exact
rational: 53 significant bits, mantissa `roundNE (|q| * 2 ^ (52 - e))` at
exponent `e = ⌊log₂ |q|⌋`.  Exact for the normal range of the format
(subnormal underflow and overflow do not arise for this pipeline's values);
this is the value `numpy` float64 arithmetic produces for a correctly-rounded
operation whose exact result is `q`. -/
def roundF (q : ℚ) : ℚ :=
  if q = 0 then 0
  else
    (if q < 0 then (-1 : ℚ) else 1) *
      ((roundNE (|q| * (2 : ℚ) ^ ((52 : ℤ) - floorLog2 |q|)) : ℤ) : ℚ) *
      (2 : ℚ) ^ (floorLog2 |q| - (52 : ℤ))

/-- Module-level constant `HOURSECONDS = 3600`. -/
def HOURSECONDS : ℕ := 3600

/-- Module-level constant `DAYMINUTES = 1440`. -/
def DAYMINUTES : ℕ := 1440

/-- `_get_edge_network`: always the fixed network code `"NT"`. -/
def _get_edge_network (self : Self) (observatory : Option String) (channel : String)
    (type interval : Option String) : String :=
  "NT"

/-- `_get_edge_station`: the observatory is returned as the station. -/
def _get_edge_station (self : Self) (observatory : Option String) (channel : String)
    (type interval : Option String) : Option String :=
  observatory

/-- `_get_interval_code`: daily→D, hourly→H, minute→M, second→S, otherwise
`raise TimeseriesFactoryException('Unexpected interval "%s"' % interval)`. -/
def _get_interval_code (self : Self) (interval : Option String) : Except PyError String :=
  if interval = some "daily" then .ok "D"
  else if interval = some "hourly" then .ok "H"
  else if interval = some "minute" then .ok "M"
  else if interval = some "second" then .ok "S"
  else .error (.timeseriesFactoryException ("Unexpected interval \"" ++ pyStr interval ++ "\""))

/-- `_get_edge_channel`: interval code concatenated with a fixed two-letter
suffix per channel, `raise TimeseriesFactoryException` for any other channel. -/
def _get_edge_channel (self : Self) (observatory : Option String) (channel : String)
    (type interval : Option String) : Except PyError String :=
  match _get_interval_code self interval with
  | .error e => .error e
  | .ok edge_interval_code =>
    if channel = "D" then .ok (edge_interval_code ++ "VD")
    else if channel = "E" then .ok (edge_interval_code ++ "VE")
    else if channel = "F" then .ok (edge_interval_code ++ "SF")
    else if channel = "H" then .ok (edge_interval_code ++ "VH")
    else if channel = "Z" then .ok (edge_interval_code ++ "VZ")
    else .error (.timeseriesFactoryException ("Unexpected channel code \"" ++ channel ++ "\""))

/-- `_get_edge_location`: the construction-time `locationCode` wins whenever it
`is not None`; otherwise variation→R0, quasi-definitive→Q0, definitive→D0, and
any other type falls through leaving `location = None` (no exception). -/
def _get_edge_location (self : Self) (observatory : Option String) (channel : String)
    (type interval : Option String) : Option String :=
  match self.locationCode with
  | some l => some l
  | none =>
    if type = some "variation" then some "R0"
    else if type = some "quasi-definitive" then some "Q0"
    else if type = some "definitive" then some "D0"
    else none

/-- `_convert_trace_to_decimal`: divide every sample of every trace by 1000.00
(`numpy.divide` on float64, so the quotient is rounded to binary64 by
`roundF`; NaN stays NaN, modelled by `Option.map`). -/
def _convert_trace_to_decimal (stream : List Trace) : List Trace :=
  stream.map fun t =>
    ⟨t.channel, t.starttime, t.delta,
      t.data.map (Option.map (fun q => roundF (q / 1000))), t.meta⟩

/-- `_convert_trace_to_int`: multiply every sample by 1000.00
(`numpy.multiply` on float64, so the product is rounded to binary64 by
`roundF`), then `astype(int)` (truncation toward zero, kept as an
integer-valued rational). -/
def _convert_trace_to_int (t : Trace) : Trace :=
  ⟨t.channel, t.starttime, t.delta,
    (t.data.map (Option.map (fun q => roundF (q * 1000)))).map
      (Option.map (fun q => ((pyInt q : ℤ) : ℚ))),
    t.meta⟩

/-- `ma.masked_invalid`: NaN becomes a masked entry; in this model both are
`none`, so the conversion is the identity on the sample list. -/
def ma_masked_invalid (d : List (Option ℚ)) : List (Option ℚ) := d

/-- `_convert_stream_to_masked`: mask the data of every trace of one channel. -/
def _convert_stream_to_masked (timeseries : List Trace) (channel : String) : List Trace :=
  timeseries.map fun t =>
    if t.channel = channel then ⟨t.channel, t.starttime, t.delta, ma_masked_invalid t.data, t.meta⟩
    else t

/-- obspy `Stream.select(channel=...)`: the traces of one channel. -/
def streamSelect (ts : List Trace) (channel : String) : List Trace :=
  ts.filter fun t => t.channel = channel

/-- Helper for obspy `split`: maximal runs of consecutive present samples,
each tagged with the index of its first sample. -/
def splitRunsAux : List (Option ℚ) → ℕ → Option (ℕ × List ℚ) → List (ℕ × List ℚ)
  | [], _, none => []
  | [], _, some (s, acc) => [(s, acc.reverse)]
  | none :: rest, i, none => splitRunsAux rest (i + 1) none
  | none :: rest, i, some (s, acc) => (s, acc.reverse) :: splitRunsAux rest (i + 1) none
  | some q :: rest, i, none => splitRunsAux rest (i + 1) (some (i, [q]))
  | some q :: rest, i, some (s, acc) => splitRunsAux rest (i + 1) (some (s, q :: acc))

/-- obspy `Trace.split()`: break a masked trace into contiguous unmasked traces,
each starting at its run's first sample time. -/
def Trace.split (t : Trace) : List Trace :=
  (splitRunsAux t.data 0 none).map fun r =>
    ⟨t.channel, t.starttime + (r.1 : ℚ) * t.delta, t.delta, r.2.map some, t.meta⟩

/-- obspy `Stream.split()`: concatenation of the per-trace splits. -/
def streamSplit : List Trace → List Trace
  | [] => []
  | t :: rest => Trace.split t ++ streamSplit rest

/-- obspy `Trace.slice(starttime, endtime)`: the samples whose times lie in
`[starttime, endtime]` (start of the sliced trace = first kept sample time). -/
def Trace.slice (t : Trace) (st et : ℚ) : Trace :=
  let keep := (List.range t.data.length).filter fun j : ℕ =>
    decide (st ≤ t.starttime + (j : ℚ) * t.delta) && decide (t.starttime + (j : ℚ) * t.delta ≤ et)
  ⟨t.channel,
    (match keep.head? with
     | some j => t.starttime + (j : ℚ) * t.delta
     | none => st),
    t.delta,
    keep.filterMap (fun j : ℕ => t.data[j]?),
    t.meta⟩

/-- Wire identity built by `RawInputClient.create_seedname(station, channel,
location, network)`. -/
structure Seedname where
  station : Option String
  channel : String
  location : Option String
  network : String
  deriving DecidableEq, Repr

/-- One `ric.send(seedname, nsamp, data, starttime, samplerate, 0, 0, 0, 0)`. -/
structure Send where
  seedname : Seedname
  nsamp : ℕ
  data : List (Option ℚ)
  starttime : ℚ
  samplerate : ℚ
  deriving DecidableEq, Repr

/-- Observable actions on the `RawInputClient` write transport during one
`put_timeseries` call. -/
structure WriteLog where
  ricConstructed : ℕ
  warnings : ℕ
  sends : List Send
  forceouts : ℕ
  closes : ℕ
  deriving DecidableEq, Repr

/-- Python `xrange(0, stop, step)` for `step > 0`. -/
def xrange0 (stop step : ℕ) : List ℕ :=
  (List.range ((stop + step - 1) / step)).map (· * step)

/-- Body of `_put_trace`'s window loop `for i in xrange(0, totalsamps, nsamp)`.
The index list is fixed when the loop starts (Python evaluates `xrange` once),
while the locals `location`, `nsamp` and `starttime` are mutated across
iterations and are threaded explicitly.  Returns the sends together with the
seedname of the last iteration (needed by the trailing `forceout(seedname)`). -/
def _put_trace_loop (self : Self) (trace : Trace) (station : Option String)
    (network edge_channel : String) (totalsamps : ℕ) (timeoffset samplerate : ℚ) :
    List ℕ → Option String → ℕ → ℚ → List Send × Option Seedname
  | [], _, _, _ => ([], none)
  | i :: rest, location0, nsamp0, starttime =>
    let location := pyOr self.locationCode location0
    let seedname : Seedname := ⟨station, edge_channel, location, network⟩
    let endsample : ℕ := if totalsamps - i < nsamp0 then totalsamps else i + nsamp0
    let nsamp : ℕ := endsample - i
    let endtime : ℚ := starttime + ((nsamp : ℚ) - 1) * timeoffset
    let trace_send := _convert_trace_to_int (Trace.slice trace starttime endtime)
    let snd : Send := ⟨seedname, nsamp, trace_send.data, starttime, samplerate⟩
    let res := _put_trace_loop self trace station network edge_channel totalsamps
      timeoffset samplerate rest location nsamp (starttime + (nsamp : ℚ) * timeoffset)
    (snd :: res.1, some (res.2.getD seedname))

/-- `_put_trace`: resolve the wire identity, dispatch the window parameters on
`self.interval` (note: NOT on the `interval` argument; and with no `else`
branch, so any other value leaves `nsamp` unassigned and the loop raises
`UnboundLocalError`), then emit the windows and `forceout` the last seedname
(itself an `UnboundLocalError` when the loop ran zero iterations). -/
def _put_trace (self : Self) (trace : Trace) (observatory : Option String) (channel : String)
    (type interval : Option String) : Except PyError (List Send × Seedname) :=
  let station := _get_edge_station self observatory channel type interval
  let location := _get_edge_location self observatory channel type interval
  let network := _get_edge_network self observatory channel type interval
  match _get_edge_channel self observatory channel type interval with
  | .error e => .error e
  | .ok edge_channel =>
    let totalsamps := trace.data.length
    let starttime := trace.starttime
    match (if self.interval = some "second" then
             Except.ok (HOURSECONDS, (1 : ℚ), (1 : ℚ))
           else if self.interval = some "minute" then
             Except.ok (DAYMINUTES, (60 : ℚ), 1 / 60)
           else
             Except.error (PyError.unboundLocalError "nsamp")) with
    | .error e => .error e
    | .ok nts =>
      match _put_trace_loop self trace station network edge_channel totalsamps
          nts.2.1 nts.2.2 (xrange0 totalsamps nts.1) location nts.1 starttime with
      | (sends, some seedname) => .ok (sends, seedname)
      | (_, none) => .error (PyError.unboundLocalError "seedname")

/-- Channel-inner loop of `put_timeseries`: one `_put_trace` per trace of the
split stream; an exception aborts the loop and propagates with the log as it
stood (no close has happened). -/
def putChannelTraces (self : Self) (observatory : Option String) (type interval : Option String)
    (channel : String) : List Trace → WriteLog → Except (PyError × WriteLog) WriteLog
  | [], log => .ok log
  | tr :: rest, log =>
    match _put_trace self tr observatory channel type interval with
    | .error e => .error (e, log)
    | .ok sres =>
      putChannelTraces self observatory type interval channel rest
        ⟨log.ricConstructed, log.warnings, log.sends ++ sres.1, log.forceouts + 1, log.closes⟩

/-- Channel loop of `put_timeseries`: a channel absent from the stream is
skipped with a warning on stderr; otherwise the stream is masked (a mutation
that persists into later iterations) and each split trace is sent. -/
def putChannels (self : Self) (observatory : Option String) (type interval : Option String) :
    List String → List Trace → WriteLog → Except (PyError × WriteLog) (List Trace × WriteLog)
  | [], ts, log => .ok (ts, log)
  | c :: rest, ts, log =>
    if (streamSelect ts c).length = 0 then
      putChannels self observatory type interval rest ts
        ⟨log.ricConstructed, log.warnings + 1, log.sends, log.forceouts, log.closes⟩
    else
      let ts2 := _convert_stream_to_masked ts c
      match putChannelTraces self observatory type interval c
          (streamSplit (streamSelect ts2 c)) log with
      | .error e => .error e
      | .ok log2 => putChannels self observatory type interval rest ts2 log2

/-- `put_timeseries`: resolve the defaults, construct the `RawInputClient`
(unconditionally, before any validation), process the channels, and call
`self.ric.close()` only on the fall-through exit (there is no try/finally, so
an exception propagates with the session left open). -/
def put_timeseries (self : Self) (timeseries : List Trace) (observatory : Option String)
    (channels : List String) (type interval : Option String) :
    Except PyError Unit × WriteLog :=
  let observatory := pyOr observatory self.observatory
  let channels := pyOrList channels self.channels
  let type := pyOr type self.type
  let interval := pyOr interval self.interval
  let log : WriteLog := ⟨1, 0, [], 0, 0⟩
  match putChannels self observatory type interval channels timeseries log with
  | .error elog => (.error elog.1, elog.2)
  | .ok res => (.ok (), ⟨res.2.ricConstructed, res.2.warnings, res.2.sends,
      res.2.forceouts, res.2.closes + 1⟩)

/-- A `client.getWaveform(network, station, location, channel, starttime,
endtime)` request issued to the earthworm read transport. -/
structure Query where
  network : String
  station : Option String
  location : Option String
  channel : String
  starttime : ℚ
  endtime : ℚ
  deriving DecidableEq, Repr

/-- `_set_metadata`: annotate every trace of the stream with (observatory,
channel, type, interval) via the `ObservatoryMetadata` collaborator. -/
def _set_metadata (stream : List Trace) (observatory : Option String) (channel : String)
    (type interval : Option String) : List Trace :=
  stream.map fun t =>
    ⟨t.channel, t.starttime, t.delta, t.data, some (observatory, channel, type, interval)⟩

/-- `_get_timeseries`: resolve the wire identity, query the read transport
(the earthworm client is an oracle parameter; `data.merge()` is the
collaborator's responsibility and the oracle returns merged data), attach
metadata.  Also reports the queries it issued. -/
def _get_timeseries (self : Self) (client : Query → List Trace) (starttime endtime : ℚ)
    (observatory : Option String) (channel : String) (type interval : Option String) :
    Except PyError (List Trace × List Query) :=
  let station := _get_edge_station self observatory channel type interval
  let location := _get_edge_location self observatory channel type interval
  let network := _get_edge_network self observatory channel type interval
  match _get_edge_channel self observatory channel type interval with
  | .error e => .error e
  | .ok edge_channel =>
    let q : Query := ⟨network, station, location, edge_channel, starttime, endtime⟩
    let data := client q
    .ok (_set_metadata data observatory channel type interval, [q])

/-- `_clean_timeseries` loop body for one trace: pad the front when the trace
starts after the requested start (count `int((trace_starttime - starttime) /
delta)`, start reset to `starttime`), pad the back when it ends before the
requested end (count `int((endtime - trace_endtime) / delta)`; the code's
`trace.stats.endttime = endtime` assigns a misspelled attribute and has no
effect on the real end time, which obspy derives from the length). -/
def _clean_trace (tr : Trace) (starttime endtime : ℚ) : Trace :=
  let trace_starttime := tr.starttime
  let trace_endtime := Trace.endtime tr
  let tr1 : Trace :=
    if starttime < tr.starttime then
      ⟨tr.channel, starttime, tr.delta,
        List.replicate (pyInt ((trace_starttime - starttime) / tr.delta)).toNat none ++ tr.data,
        tr.meta⟩
    else tr
  if trace_endtime < endtime then
    ⟨tr1.channel, tr1.starttime, tr1.delta,
      tr1.data ++ List.replicate (pyInt ((endtime - trace_endtime) / tr1.delta)).toNat none,
      tr1.meta⟩
  else tr1

/-- `_clean_timeseries`: realign every trace of the stream to the requested
`[starttime, endtime]` span. -/
def _clean_timeseries (timeseries : List Trace) (starttime endtime : ℚ) : List Trace :=
  timeseries.map fun tr => _clean_trace tr starttime endtime

/-- `_post_process`: descale to decimal, fill masked samples with NaN (the
identity in this model), then `_clean_timeseries`. -/
def _post_process (timeseries : List Trace) (starttime endtime : ℚ)
    (channels : List String) : List Trace :=
  _clean_timeseries (_convert_trace_to_decimal timeseries) starttime endtime

/-- Channel loop of `get_timeseries`, accumulating the fetched traces and the
queries issued so far; a mapping exception aborts before further queries. -/
def getChannels (self : Self) (client : Query → List Trace) (starttime endtime : ℚ)
    (observatory : Option String) (type interval : Option String) :
    List String → List Trace → List Query → Except PyError (List Trace) × List Query
  | [], acc, qs => (.ok acc, qs)
  | c :: rest, acc, qs =>
    match _get_timeseries self client starttime endtime observatory c type interval with
    | .error e => (.error e, qs)
    | .ok dres =>
      getChannels self client starttime endtime observatory type interval rest
        (acc ++ dres.1) (qs ++ dres.2)

/-- `get_timeseries`: resolve the defaults, raise
`TimeseriesFactoryException('Starttime before endtime ...')` when
`starttime > endtime` (before any transport call), otherwise fetch every
channel and post-process.  Also reports the queries issued. -/
def get_timeseries (self : Self) (client : Query → List Trace) (starttime endtime : ℚ)
    (observatory : Option String) (channels : List String) (type interval : Option String) :
    Except PyError (List Trace) × List Query :=
  let observatory := pyOr observatory self.observatory
  let channels := pyOrList channels self.channels
  let type := pyOr type self.type
  let interval := pyOr interval self.interval
  if endtime < starttime then
    (.error (.timeseriesFactoryException
      ("Starttime before endtime \"" ++ toString starttime ++ "\" \"" ++ toString endtime ++ "\"")), [])
  else
    match getChannels self client starttime endtime observatory type interval channels [] [] with
    | (.error e, qs) => (.error e, qs)
    | (.ok ts, qs) => (.ok (_post_process ts starttime endtime channels), qs)

/-! ### Concrete fixtures used by witnesses and counterexamples -/

/-- Factory configured for minute data at observatory BOU, no location override. -/
def cfg0 : Self := ⟨some "BOU", ["H"], some "variation", some "minute", none⟩

/-- Factory with a configured location override. -/
def cfgOverride : Self := ⟨some "BOU", ["H"], some "variation", some "minute", some "R1"⟩

/-- Factory whose configured interval is hourly (unsupported for writing). -/
def cfgHourly : Self := ⟨some "BOU", ["H"], some "variation", some "hourly", none⟩

/-- Factory configured for minute data whose default channel list is the
invalid channel X. -/
def cfgMinuteX : Self := ⟨some "BOU", ["X"], some "variation", some "minute", none⟩

/-- Factory whose location override is the empty string (non-None but falsy). -/
def cfgEmptyLoc : Self := ⟨some "BOU", ["H"], some "variation", some "minute", some ""⟩

/-- Two-sample H trace at second spacing. -/
def trH2 : Trace := ⟨"H", 0, 1, [some 1, some 2], none⟩

/-- Two-sample trace on the invalid channel X. -/
def trX2 : Trace := ⟨"X", 0, 60, [some 1, some 2], none⟩

/-- Two-sample minute-rate H trace. -/
def trM2 : Trace := ⟨"H", 0, 60, [some 1, some 2], none⟩

/-- One-sample minute-rate H trace. -/
def trM1 : Trace := ⟨"H", 0, 60, [some 1], none⟩

/-- Trace starting 2.6 sample intervals after the requested start. -/
def cx3tr : Trace := ⟨"H", 13 / 5, 1, [some 1], none⟩

/-- Trace with a 2-sample gap before it and a 2-sample gap after it
relative to the request [0, 4]. -/
def w3tr : Trace := ⟨"H", 2, 1, [some 5], none⟩

/-- Trace whose single sample is the integer 1001, on which the float64
round-trip of the codec loses one unit. -/
def cx8t : Trace := ⟨"H", 0, 1, [some 1001], none⟩

/-- Trace whose single sample is the integer 1 (round-trips exactly). -/
def w8a : Trace := ⟨"H", 0, 1, [some 1], none⟩

/-- Seedname produced for BOU / MVH with no location override. -/
def w5seed : Seedname := ⟨some "BOU", "MVH", none, "NT"⟩

/-- The single window sent for `trM2` at minute interval. -/
def w5sends : List Send := [⟨w5seed, 2, [some 1000, some 2000], 0, 1 / 60⟩]

/-- Seedname produced for BOU / MVH when the location override is `""`. -/
def cxSeed : Seedname := ⟨some "BOU", "MVH", some "", "NT"⟩

/-- The single window sent for `trM1` under the empty-string override. -/
def cxSends : List Send := [⟨cxSeed, 1, [some 1000], 0, 1 / 60⟩]

/-! ### Claim theorems -/

set_option maxRecDepth 10000

/-- Claim C1 (code_bug evidence): a `put` whose effective interval is
`hourly` (neither minute nor second) does NOT fail fast with an unsupported-
write-interval error before the transport session is opened.  Instead the
code constructs the `RawInputClient` first (`ricConstructed = 1`), then
`_put_trace` dispatches on `self.interval` with no `else` branch and the
window loop raises `UnboundLocalError` on the unassigned `nsamp`; the session
is never closed (`closes = 0`) and no send occurs. -/
theorem put_unsupported_interval_behavior :
    put_timeseries cfgHourly [trH2] none [] none none =
      (.error (.unboundLocalError "nsamp"), ⟨1, 0, [], 0, 0⟩) := by
  with_unfolding_all rfl

/-- Claim C2 (code_bug evidence): the write session is NOT closed on every
exit path.  First conjunct: when a channel raises mid-loop (invalid channel
X), the exception propagates and `ric.close()` is never reached
(`closes = 0`) even though the session was opened (`ricConstructed = 1`).
Second conjunct: on the skip path (requested channel absent from the input)
the call warns once and closes exactly once, as the claim describes. -/
theorem put_close_not_guaranteed :
    put_timeseries cfgMinuteX [trX2] none [] none none =
      (.error (.timeseriesFactoryException "Unexpected channel code \"X\""), ⟨1, 0, [], 0, 0⟩)
  ∧ put_timeseries cfgMinuteX [trX2] none ["H"] none none =
      (.ok (), ⟨1, 1, [], 0, 1⟩) := by
  constructor
  · with_unfolding_all rfl
  · with_unfolding_all rfl

/-- Claim C4: `get` with `starttime > endtime` fails with the range error
(`TimeseriesFactoryException 'Starttime before endtime ...'`, the code's
realization of `InvalidRangeError`) and issues zero read-transport queries. -/
theorem get_invalid_range (self : Self) (client : Query → List Trace) (starttime endtime : ℚ)
    (observatory : Option String) (channels : List String) (type interval : Option String)
    (h : endtime < starttime) :
    (∃ m, (get_timeseries self client starttime endtime observatory channels type interval).1
        = .error (.timeseriesFactoryException m))
  ∧ (get_timeseries self client starttime endtime observatory channels type interval).2 = [] := by
  unfold get_timeseries
  rw [if_pos h]
  exact ⟨⟨_, rfl⟩, rfl⟩

/-- Witness for C4 at `starttime = 1 > endtime = 0` with a trivial client. -/
theorem get_invalid_range_witness :
    ((0 : ℚ) < 1)
  ∧ ((∃ m, (get_timeseries cfg0 (fun _ => []) 1 0 none [] none none).1
        = .error (.timeseriesFactoryException m))
     ∧ (get_timeseries cfg0 (fun _ => []) 1 0 none [] none none).2 = []) :=
  ⟨by norm_num, get_invalid_range cfg0 (fun _ => []) 1 0 none [] none none (by norm_num)⟩

/-- Claim C6: an override location always wins regardless of the type value;
with no override, variation→R0, quasi-definitive→Q0, definitive→D0, and any
other type yields `none` (an unset location) rather than a raised error
(`_get_edge_location` is total, it has no raise path). -/
theorem location_code_spec (self : Self) (obs : Option String) (ch : String)
    (ty iv : Option String) (l : String) :
    (self.locationCode = some l → _get_edge_location self obs ch ty iv = some l)
  ∧ (self.locationCode = none → ty = some "variation" →
      _get_edge_location self obs ch ty iv = some "R0")
  ∧ (self.locationCode = none → ty = some "quasi-definitive" →
      _get_edge_location self obs ch ty iv = some "Q0")
  ∧ (self.locationCode = none → ty = some "definitive" →
      _get_edge_location self obs ch ty iv = some "D0")
  ∧ (self.locationCode = none → ty ≠ some "variation" → ty ≠ some "quasi-definitive" →
      ty ≠ some "definitive" → _get_edge_location self obs ch ty iv = none) := by
  refine ⟨fun h => by simp [_get_edge_location, h],
    fun h h2 => by simp [_get_edge_location, h, h2],
    fun h h2 => by simp [_get_edge_location, h, h2],
    fun h h2 => by simp [_get_edge_location, h, h2],
    fun h h2 h3 h4 => by simp [_get_edge_location, h, h2, h3, h4]⟩

/-- Witness for C6: the override `"R1"` wins for an invalid type, and with no
override an invalid type yields an unset location. -/
theorem location_code_spec_witness :
    (cfgOverride.locationCode = some "R1"
      ∧ _get_edge_location cfgOverride none "H" (some "bogus") (some "minute") = some "R1")
  ∧ (cfg0.locationCode = none
      ∧ _get_edge_location cfg0 none "H" (some "bogus") (some "minute") = none) :=
  ⟨⟨rfl, (location_code_spec cfgOverride none "H" (some "bogus") (some "minute") "R1").1 rfl⟩,
   ⟨rfl, (location_code_spec cfg0 none "H" (some "bogus") (some "minute") "R1").2.2.2.2 rfl
      (by simp) (by simp) (by simp)⟩⟩

/-- Claim C9: the gap reconciler is a no-op on a stream whose every trace
already covers the requested range: same traces, hence same sample counts,
sample values, start times and end times. -/
theorem clean_noop (ts : List Trace) (s e : ℚ)
    (h : ∀ tr ∈ ts, tr.starttime ≤ s ∧ e ≤ Trace.endtime tr) :
    _clean_timeseries ts s e = ts := by
  unfold _clean_timeseries
  conv_rhs => rw [← List.map_id ts]
  refine List.map_congr_left fun tr htr => ?_
  obtain ⟨h1, h2⟩ := h tr htr
  unfold _clean_trace
  simp only [id_eq]
  rw [if_neg (not_lt.mpr h1), if_neg (not_lt.mpr h2)]

/-- Witness for C9 on a concrete fully-covering trace. -/
theorem clean_noop_witness :
    (∀ tr ∈ [trH2], tr.starttime ≤ 0 ∧ (1 : ℚ) ≤ Trace.endtime tr)
  ∧ _clean_timeseries [trH2] 0 1 = [trH2] :=
  ⟨by with_unfolding_all decide,
   clean_noop [trH2] 0 1 (by with_unfolding_all decide)⟩

/-- Claim C3 counterexample: for a trace starting 2.6 sample intervals after
the requested start, the code prepends `int(2.6) = 2` missing samples (total
length 3), not the `round(2.6) = 3` the claim prescribes (total length 4):
the reconciler truncates, it does not round. -/
theorem clean_round_cx :
    _clean_timeseries [cx3tr] 0 (13 / 5) = [⟨"H", 0, 1, [none, none, some 1], none⟩]
  ∧ (round ((cx3tr.starttime - 0) / cx3tr.delta) : ℤ) = 3
  ∧ _clean_timeseries [cx3tr] 0 (13 / 5) ≠
      [⟨"H", 0, 1,
        List.replicate (round ((cx3tr.starttime - 0) / cx3tr.delta) : ℤ).toNat none ++ cx3tr.data,
        none⟩] := by
  refine ⟨by with_unfolding_all rfl, by with_unfolding_all rfl, ?_⟩
  with_unfolding_all decide

/-- Claim C3 as amended: the prepended and appended counts use Python `int`
truncation (`pyInt`), not `round` (the two agree when the offsets are exact
multiples of the sample interval); the prepend branch sets the start to the
requested start; and the reconciler never removes samples — the original data
always survives as a contiguous block. -/
theorem clean_trace_eq (tr : Trace) (s e : ℚ) :
    _clean_trace tr s e =
      ⟨tr.channel,
       if s < tr.starttime then s else tr.starttime,
       tr.delta,
       (if s < tr.starttime then
          List.replicate (pyInt ((tr.starttime - s) / tr.delta)).toNat none
        else []) ++ tr.data ++
       (if Trace.endtime tr < e then
          List.replicate (pyInt ((e - Trace.endtime tr) / tr.delta)).toNat none
        else []),
       tr.meta⟩ := by
  unfold _clean_trace
  simp only [id_eq]
  by_cases h1 : s < tr.starttime <;> by_cases h2 : Trace.endtime tr < e <;>
    simp [h1, h2, List.append_assoc]

theorem clean_trace_pads (tr : Trace) (s e : ℚ) :
    (s < tr.starttime →
      (_clean_trace tr s e).starttime = s
      ∧ ∃ post, (_clean_trace tr s e).data =
          List.replicate (pyInt ((tr.starttime - s) / tr.delta)).toNat none ++ tr.data ++ post)
  ∧ (Trace.endtime tr < e →
      ∃ pre, (_clean_trace tr s e).data =
        pre ++ tr.data ++ List.replicate (pyInt ((e - Trace.endtime tr) / tr.delta)).toNat none)
  ∧ (∃ pre post, (_clean_trace tr s e).data = pre ++ tr.data ++ post)
  ∧ tr.data.length ≤ (_clean_trace tr s e).data.length := by
  rw [clean_trace_eq]
  refine ⟨fun h1 => ?_, fun h2 => ?_, ⟨_, _, rfl⟩, ?_⟩
  · constructor
    · simp only [if_pos h1]
    · exact ⟨_, by dsimp only; rw [if_pos h1]⟩
  · exact ⟨_, by dsimp only; rw [if_pos h2]⟩
  · simp only [List.length_append]
    omega

/-- Witness for the amended C3 on a trace with a 2-interval gap on each side. -/
theorem clean_trace_pads_witness :
    ((0 : ℚ) < w3tr.starttime ∧ Trace.endtime w3tr < 4)
  ∧ ((_clean_trace w3tr 0 4).starttime = 0
      ∧ ∃ post, (_clean_trace w3tr 0 4).data =
          List.replicate (pyInt ((w3tr.starttime - 0) / w3tr.delta)).toNat none ++ w3tr.data ++ post) :=
  ⟨⟨by with_unfolding_all decide, by with_unfolding_all decide⟩,
   (clean_trace_pads w3tr 0 4).1 (by with_unfolding_all decide)⟩

/-- Claim C7: for each of the four valid intervals, the edge channel code for
D/E/F/H/Z is the one-character interval code followed by the fixed suffix, a
3-character string whose first character is the interval code; any channel
outside that set raises the invalid-channel error
(`TimeseriesFactoryException 'Unexpected channel code ...'`). -/
theorem channel_code_spec (self : Self) (obs : Option String) (ty iv : Option String)
    (hiv : iv ∈ [some "daily", some "hourly", some "minute", some "second"]) :
    ∃ ic, _get_interval_code self iv = .ok ic
      ∧ (∀ p ∈ [("D", "VD"), ("E", "VE"), ("F", "SF"), ("H", "VH"), ("Z", "VZ")],
          _get_edge_channel self obs p.1 ty iv = .ok (ic ++ p.2)
          ∧ (ic ++ p.2).length = 3 ∧ (ic ++ p.2).take 1 = ic)
      ∧ (∀ ch, ch ∉ ["D", "E", "F", "H", "Z"] →
          _get_edge_channel self obs ch ty iv =
            .error (.timeseriesFactoryException ("Unexpected channel code \"" ++ ch ++ "\""))) := by
  have herr : ∀ ch, ch ∉ ["D", "E", "F", "H", "Z"] → ∀ icode,
      _get_interval_code self iv = .ok icode →
      _get_edge_channel self obs ch ty iv =
        .error (.timeseriesFactoryException ("Unexpected channel code \"" ++ ch ++ "\"")) := by
    intro ch hch icode hic
    simp only [List.mem_cons, List.mem_singleton, not_or] at hch
    obtain ⟨n1, n2, n3, n4, n5, -⟩ := hch
    unfold _get_edge_channel
    rw [hic]
    simp [n1, n2, n3, n4, n5]
  fin_cases hiv
  · exact ⟨"D", by with_unfolding_all rfl,
      by intro p hp; fin_cases hp <;>
        exact ⟨by with_unfolding_all rfl, by decide, by decide⟩,
      fun ch hch => herr ch hch "D" (by with_unfolding_all rfl)⟩
  · exact ⟨"H", by with_unfolding_all rfl,
      by intro p hp; fin_cases hp <;>
        exact ⟨by with_unfolding_all rfl, by decide, by decide⟩,
      fun ch hch => herr ch hch "H" (by with_unfolding_all rfl)⟩
  · exact ⟨"M", by with_unfolding_all rfl,
      by intro p hp; fin_cases hp <;>
        exact ⟨by with_unfolding_all rfl, by decide, by decide⟩,
      fun ch hch => herr ch hch "M" (by with_unfolding_all rfl)⟩
  · exact ⟨"S", by with_unfolding_all rfl,
      by intro p hp; fin_cases hp <;>
        exact ⟨by with_unfolding_all rfl, by decide, by decide⟩,
      fun ch hch => herr ch hch "S" (by with_unfolding_all rfl)⟩

/-- Witness for C7 at the minute interval. -/
theorem channel_code_spec_witness :
    (some "minute" ∈ [some "daily", some "hourly", some "minute", some "second"])
  ∧ ∃ ic, _get_interval_code cfg0 (some "minute") = .ok ic
      ∧ (∀ p ∈ [("D", "VD"), ("E", "VE"), ("F", "SF"), ("H", "VH"), ("Z", "VZ")],
          _get_edge_channel cfg0 none p.1 none (some "minute") = .ok (ic ++ p.2)
          ∧ (ic ++ p.2).length = 3 ∧ (ic ++ p.2).take 1 = ic)
      ∧ (∀ ch, ch ∉ ["D", "E", "F", "H", "Z"] →
          _get_edge_channel cfg0 none ch none (some "minute") =
            .error (.timeseriesFactoryException ("Unexpected channel code \"" ++ ch ++ "\""))) :=
  ⟨by decide, channel_code_spec cfg0 none none (some "minute") (by decide)⟩

theorem bitlenAux_lower : ∀ (fuel n : ℕ), 1 ≤ n → 2 ^ (bitlenAux fuel n - 1) ≤ n := by
  intro fuel
  induction fuel with
  | zero => intro n h; simp [bitlenAux]; omega
  | succ f ih =>
    intro n h
    rw [bitlenAux, if_neg (by omega)]
    by_cases h2 : n = 1
    · subst h2
      have hz : bitlenAux f (1 / 2) = 0 := by
        norm_num
        cases f <;> simp [bitlenAux]
      rw [hz]
      norm_num
    · have hd0 : 1 ≤ n / 2 := by omega
      have ih2 := ih (n / 2) hd0
      set b := bitlenAux f (n / 2) with hb
      rcases Nat.eq_zero_or_pos b with hb0 | hb1
      · rw [hb0]
        simpa using h
      · have hpow : 2 ^ b = 2 * 2 ^ (b - 1) := by
          rw [← pow_succ']
          congr 1
          omega
        have hidx : b + 1 - 1 = b := by omega
        rw [hidx]
        omega

theorem bitlenAux_upper : ∀ (fuel n : ℕ), n < 2 ^ fuel → n < 2 ^ bitlenAux fuel n := by
  intro fuel
  induction fuel with
  | zero => intro n h; simpa [bitlenAux] using h
  | succ f ih =>
    intro n h
    rw [bitlenAux]
    by_cases h0 : n = 0
    · rw [if_pos h0, h0]
      norm_num
    · rw [if_neg h0]
      have hdlt : n / 2 < 2 ^ f := by
        rw [Nat.div_lt_iff_lt_mul (by norm_num)]
        calc n < 2 ^ (f + 1) := h
        _ = 2 ^ f * 2 := by rw [pow_succ]
      have ih2 := ih (n / 2) hdlt
      have hpow : 2 ^ (bitlenAux f (n / 2) + 1) = 2 * 2 ^ bitlenAux f (n / 2) := by
        rw [pow_succ]
        ring
      omega

theorem bitlen_lower (n : ℕ) (h : 1 ≤ n) : 2 ^ (bitlen n - 1) ≤ n :=
  bitlenAux_lower 128 n h

theorem bitlen_upper (n : ℕ) (h : n < 2 ^ 128) : n < 2 ^ bitlen n :=
  bitlenAux_upper 128 n h

theorem bitlen_le (n k : ℕ) (h : n < 2 ^ k) : bitlen n ≤ k := by
  rcases Nat.eq_zero_or_pos n with h0 | h1
  · subst h0
    have hz : bitlen 0 = 0 := by decide
    omega
  · by_contra hgt
    push_neg at hgt
    have h2 := bitlen_lower n h1
    have h3 : 2 ^ k ≤ 2 ^ (bitlen n - 1) := Nat.pow_le_pow_right (by norm_num) (by omega)
    omega

theorem den_intCast_div_le (a : ℤ) (b : ℕ) (hb : 0 < b) :
    ((a : ℚ) / (b : ℚ)).den ≤ b := by
  have h1 : ((a : ℚ) / (b : ℚ)) = Rat.divInt a (b : ℤ) := by
    rw [Rat.divInt_eq_div]
    norm_num
  rw [h1]
  have h3 : ((Rat.divInt a (b : ℤ)).den : ℤ) ∣ (b : ℤ) := Rat.den_dvd a (b : ℤ)
  have h4 : (Rat.divInt a (b : ℤ)).den ∣ b := by exact_mod_cast h3
  exact Nat.le_of_dvd hb h4

theorem den_mul_zpow_le (m : ℤ) (e : ℤ) :
    ((m : ℚ) * (2 : ℚ) ^ e).den ≤ 2 ^ (-e).toNat := by
  rcases le_or_lt 0 e with he | he
  · have h1 : (m : ℚ) * (2 : ℚ) ^ e = ((m * 2 ^ e.toNat : ℤ) : ℚ) := by
      push_cast
      rw [← zpow_natCast (2 : ℚ) e.toNat, Int.toNat_of_nonneg he]
    rw [h1, Rat.den_intCast]
    have h2 : (-e).toNat = 0 := by omega
    rw [h2]
    norm_num
  · have h1 : (m : ℚ) * (2 : ℚ) ^ e = (m : ℚ) / ((2 ^ (-e).toNat : ℕ) : ℚ) := by
      rw [div_eq_mul_inv]
      congr 1
      rw [show ((2 ^ (-e).toNat : ℕ) : ℚ) = (2 : ℚ) ^ (((-e).toNat : ℕ) : ℤ) by
        push_cast
        rw [zpow_natCast]]
      rw [Int.toNat_of_nonneg (by omega), ← zpow_neg]
      norm_num
    rw [h1]
    exact den_intCast_div_le m (2 ^ (-e).toNat) (pow_pos (by norm_num) _)

/-- The IEEE exponent lower bound: `2 ^ floorLog2 q ≤ q` for positive `q`
whose denominator is in the exact range of `bitlen`. -/
theorem floorLog2_le (q : ℚ) (h0 : 0 < q) (hd : q.den < 2 ^ 128) :
    (2 : ℚ) ^ floorLog2 q ≤ q := by
  unfold floorLog2
  split
  case isTrue h => exact h
  case isFalse h =>
    have hnum_pos : 0 < q.num := Rat.num_pos.mpr h0
    have hn1 : 1 ≤ q.num.natAbs := by omega
    have hbn := bitlen_lower q.num.natAbs hn1
    have hbd := bitlen_upper q.den hd
    set bn := bitlen q.num.natAbs with hbn_def
    set bd := bitlen q.den with hbd_def
    have hbn1 : 1 ≤ bn := by
      have hstep : bitlenAux 128 q.num.natAbs
          = if q.num.natAbs = 0 then 0 else bitlenAux 127 (q.num.natAbs / 2) + 1 := rfl
      rw [hbn_def]
      unfold bitlen
      rw [hstep, if_neg (by omega)]
      omega
    have hcast : ((q.num.natAbs : ℕ) : ℚ) = (q.num : ℚ) := by
      rw [Int.cast_natAbs, abs_of_pos (by exact_mod_cast hnum_pos)]
    have hq_eq : q = ((q.num.natAbs : ℕ) : ℚ) / ((q.den : ℕ) : ℚ) := by
      rw [hcast, Rat.num_div_den]
    have h1 : ((2 ^ (bn - 1) : ℕ) : ℚ) = (2 : ℚ) ^ (((bn - 1 : ℕ) : ℕ) : ℤ) := by
      push_cast
      rw [zpow_natCast]
    have h2 : ((2 ^ bd : ℕ) : ℚ) = (2 : ℚ) ^ ((bd : ℕ) : ℤ) := by
      push_cast
      rw [zpow_natCast]
    have hzz : (2 : ℚ) ^ ((bn : ℤ) - (bd : ℤ) - 1)
        = ((2 ^ (bn - 1) : ℕ) : ℚ) / ((2 ^ bd : ℕ) : ℚ) := by
      rw [h1, h2, ← zpow_sub₀ (by norm_num : (2 : ℚ) ≠ 0)]
      congr 1
      omega
    rw [hq_eq, hzz]
    refine div_le_div ?_ ?_ ?_ ?_
    · positivity
    · exact_mod_cast hbn
    · exact_mod_cast q.pos
    · exact_mod_cast le_of_lt hbd

theorem floorLog2_lb (q : ℚ) : -(bitlen q.den : ℤ) - 1 ≤ floorLog2 q := by
  unfold floorLog2
  split <;> omega

/-- Round-to-nearest never errs by more than half a unit. -/
theorem roundNE_err (y : ℚ) : |(roundNE y : ℚ) - y| ≤ 1 / 2 := by
  have h0 : (⌊y⌋ : ℚ) ≤ y := Int.floor_le y
  have h1 : y < ⌊y⌋ + 1 := Int.lt_floor_add_one y
  unfold roundNE
  split
  case isTrue hc => rw [abs_le]; constructor <;> push_cast <;> linarith
  case isFalse hc =>
    split
    case isTrue hc2 => rw [abs_le]; constructor <;> push_cast <;> linarith
    case isFalse hc2 =>
      split
      case isTrue hc3 => rw [abs_le]; constructor <;> push_cast <;> linarith
      case isFalse hc3 => rw [abs_le]; constructor <;> push_cast <;> linarith

/-- Binary64 rounding has relative error at most `2⁻⁵³` on the normal range:
half a unit in the last place of a 53-bit mantissa. -/
theorem roundF_err (q : ℚ) (h0 : 0 < q) (hd : q.den < 2 ^ 128) :
    |roundF q - q| ≤ q / 2 ^ 53 := by
  have hne : (2 : ℚ) ≠ 0 := by norm_num
  have h2 : (0 : ℚ) < 2 := by norm_num
  have habs : |q| = q := abs_of_pos h0
  have hlog : (2 : ℚ) ^ floorLog2 q ≤ q := floorLog2_le q h0 hd
  unfold roundF
  rw [if_neg (ne_of_gt h0), if_neg (not_lt.mpr (le_of_lt h0)), habs, one_mul]
  set e := floorLog2 q with he
  set y := q * (2 : ℚ) ^ ((52 : ℤ) - e) with hy
  have hq_eq : y * (2 : ℚ) ^ (e - (52 : ℤ)) = q := by
    rw [hy, mul_assoc, ← zpow_add₀ hne]
    norm_num
  have key : ((roundNE y : ℤ) : ℚ) * (2 : ℚ) ^ (e - (52 : ℤ)) - q
      = (((roundNE y : ℤ) : ℚ) - y) * (2 : ℚ) ^ (e - (52 : ℤ)) := by
    rw [sub_mul, hq_eq]
  rw [key, abs_mul, abs_of_pos (zpow_pos h2 _)]
  have h3 : |((roundNE y : ℤ) : ℚ) - y| * (2 : ℚ) ^ (e - (52 : ℤ))
      ≤ (1 / 2) * (2 : ℚ) ^ (e - (52 : ℤ)) :=
    mul_le_mul_of_nonneg_right (roundNE_err y) (le_of_lt (zpow_pos h2 _))
  refine le_trans h3 ?_
  have h4 : (1 / 2 : ℚ) * (2 : ℚ) ^ (e - (52 : ℤ)) = (2 : ℚ) ^ e / 2 ^ 53 := by
    have ha : (1 / 2 : ℚ) = (2 : ℚ) ^ (-(1 : ℤ)) := by norm_num
    have hb : ((2 : ℚ) ^ (53 : ℕ)) = (2 : ℚ) ^ ((53 : ℤ)) := by
      rw [← zpow_natCast (2 : ℚ) 53]
      norm_num
    rw [ha, hb, ← zpow_add₀ hne, div_eq_mul_inv, ← zpow_neg, ← zpow_add₀ hne]
    congr 1
    ring
  rw [h4]
  have h5 : (0 : ℚ) < 2 ^ 53 := by positivity
  exact (div_le_div_right h5).mpr hlog

/-- Decode-then-encode on one integer sample: dividing by 1000.0 and
multiplying by 1000.0 in binary64 and truncating gives back `x` or `x - 1`
(the two float roundings move the product by less than one unit below
`2 ^ 51`, and truncation can then lose exactly one). -/
theorem encode_decode_slack (x : ℤ) (hx1 : 1 ≤ x) (hx2 : x < 2 ^ 51) :
    pyInt (roundF (roundF ((x : ℚ) / 1000) * 1000)) = x
  ∨ pyInt (roundF (roundF ((x : ℚ) / 1000) * 1000)) = x - 1 := by
  have hA0 : (0 : ℚ) < (x : ℚ) := by exact_mod_cast hx1
  have hA2 : (x : ℚ) < 2 ^ 51 := by exact_mod_cast hx2
  set q1 : ℚ := (x : ℚ) / 1000 with hq1
  have hq1pos : 0 < q1 := by positivity
  have hq1den : q1.den < 2 ^ 128 := by
    have hle : q1.den ≤ 1000 := by
      rw [hq1, show ((1000 : ℚ) = ((1000 : ℕ) : ℚ)) by norm_num]
      exact den_intCast_div_le x 1000 (by norm_num)
    calc q1.den ≤ 1000 := hle
    _ < 2 ^ 128 := by norm_num
  have herr1 := roundF_err q1 hq1pos hq1den
  set d : ℚ := roundF q1 with hd
  have herr1' := abs_le.mp herr1
  have hq1small : q1 / 2 ^ 53 < q1 := by
    rw [div_lt_iff (by positivity : (0 : ℚ) < 2 ^ 53)]
    nlinarith [hq1pos]
  have hdpos : 0 < d := by linarith [herr1'.1]
  have hq1den10 : bitlen q1.den ≤ 10 := by
    refine bitlen_le q1.den 10 ?_
    have hle : q1.den ≤ 1000 := by
      rw [hq1, show ((1000 : ℚ) = ((1000 : ℕ) : ℚ)) by norm_num]
      exact den_intCast_div_le x 1000 (by norm_num)
    omega
  have he1lb : -(11 : ℤ) ≤ floorLog2 q1 := by
    have h20 := floorLog2_lb q1
    omega
  have hdval : d = ((roundNE (q1 * (2 : ℚ) ^ ((52 : ℤ) - floorLog2 q1)) : ℤ) : ℚ)
      * (2 : ℚ) ^ (floorLog2 q1 - (52 : ℤ)) := by
    rw [hd]
    unfold roundF
    rw [if_neg (ne_of_gt hq1pos), if_neg (not_lt.mpr (le_of_lt hq1pos)),
      abs_of_pos hq1pos, one_mul]
  have hdden : d.den ≤ 2 ^ 63 := by
    rw [hdval]
    have h6 := den_mul_zpow_le (roundNE (q1 * (2 : ℚ) ^ ((52 : ℤ) - floorLog2 q1)))
      (floorLog2 q1 - (52 : ℤ))
    refine le_trans h6 ?_
    have h7 : (-(floorLog2 q1 - (52 : ℤ))).toNat ≤ 63 := by omega
    exact Nat.pow_le_pow_right (by norm_num) h7
  set y2 : ℚ := d * 1000 with hy2
  have hy2pos : 0 < y2 := by
    rw [hy2]
    exact mul_pos hdpos (by norm_num)
  have hy2den : y2.den < 2 ^ 128 := by
    have h8 : y2 = ((d.num * 1000 : ℤ) : ℚ) / ((d.den : ℕ) : ℚ) := by
      rw [hy2]
      conv_lhs => rw [← Rat.num_div_den d]
      push_cast
      ring
    rw [h8]
    have h9 := den_intCast_div_le (d.num * 1000) d.den d.pos
    have h10 : (((d.num * 1000 : ℤ) : ℚ) / ((d.den : ℕ) : ℚ)).den ≤ 2 ^ 63 :=
      le_trans h9 hdden
    calc (((d.num * 1000 : ℤ) : ℚ) / ((d.den : ℕ) : ℚ)).den ≤ 2 ^ 63 := h10
    _ < 2 ^ 128 := by norm_num
  have herr2 := roundF_err y2 hy2pos hy2den
  set p : ℚ := roundF y2 with hp
  have hy2x : |y2 - (x : ℚ)| ≤ (x : ℚ) / 2 ^ 53 := by
    have h11 : y2 - (x : ℚ) = (d - q1) * 1000 := by
      rw [hy2, hq1]
      ring
    rw [h11, abs_mul, abs_of_pos (by norm_num : (0 : ℚ) < 1000)]
    have h12 : |d - q1| * 1000 ≤ (q1 / 2 ^ 53) * 1000 :=
      mul_le_mul_of_nonneg_right herr1 (by norm_num)
    have h13 : (q1 / 2 ^ 53) * 1000 = (x : ℚ) / 2 ^ 53 := by
      rw [hq1]
      ring
    linarith
  have hy2ub : y2 ≤ (x : ℚ) + (x : ℚ) / 2 ^ 53 := by
    have h14 := (abs_le.mp hy2x).2
    linarith
  have hpx : |p - (x : ℚ)| < 1 := by
    have htri : |p - (x : ℚ)| ≤ |p - y2| + |y2 - (x : ℚ)| := by
      calc |p - (x : ℚ)| = |(p - y2) + (y2 - (x : ℚ))| := by ring_nf
      _ ≤ |p - y2| + |y2 - (x : ℚ)| := abs_add _ _
    have hb2 : y2 / 2 ^ 53 ≤ ((x : ℚ) + (x : ℚ) / 2 ^ 53) / 2 ^ 53 :=
      (div_le_div_right (by positivity : (0 : ℚ) < 2 ^ 53)).mpr hy2ub
    have hx4 : (x : ℚ) / 2 ^ 53 < 1 / 4 := by
      have hpw : (1 / 4 : ℚ) * 2 ^ 53 = 2 ^ 51 := by norm_num
      rw [div_lt_iff (by positivity : (0 : ℚ) < 2 ^ 53), hpw]
      exact hA2
    have hx5 : ((x : ℚ) + (x : ℚ) / 2 ^ 53) / 2 ^ 53 < 1 / 2 := by
      have hpw2 : (1 / 2 : ℚ) * 2 ^ 53 = 2 ^ 52 := by norm_num
      rw [div_lt_iff (by positivity : (0 : ℚ) < 2 ^ 53), hpw2]
      have hpw3 : (2 : ℚ) ^ 52 = 2 ^ 51 + 2 ^ 51 := by norm_num
      linarith
    linarith
  have hA1 : (1 : ℚ) ≤ (x : ℚ) := by exact_mod_cast hx1
  have hple : (x : ℚ) - 1 < p := by
    have h15 := (abs_lt.mp hpx).1
    linarith
  have hpge : p < (x : ℚ) + 1 := by
    have h16 := (abs_lt.mp hpx).2
    linarith
  have hppos : 0 ≤ p := by linarith
  unfold pyInt
  rw [if_pos hppos]
  have hf1 : ⌊p⌋ < x + 1 := by
    rw [Int.floor_lt]
    push_cast
    linarith
  have hf2 : x - 1 ≤ ⌊p⌋ := by
    rw [Int.le_floor]
    push_cast
    linarith
  omega

/-- Claim C8 counterexample: at the integer sample 1001, the program's
float64 codec does NOT recover the original — `1001 / 1000.0` rounds to the
binary64 value just below 1.001, multiplying by 1000.0 gives the value just
below 1001, and `astype(int)` truncates it to 1000.  So encode(decode(x))
equals 1000 ≠ 1001 and the round-trip claim fails as stated. -/
theorem codec_roundtrip_cx :
    (_convert_trace_to_decimal [cx8t]).map _convert_trace_to_int
      = [⟨"H", 0, 1, [some 1000], none⟩]
  ∧ ¬ (_convert_trace_to_decimal [cx8t]).map _convert_trace_to_int = [cx8t] := by
  constructor
  · with_unfolding_all rfl
  · with_unfolding_all decide

/-- Claim C8 as amended: decode divides each sample by 1000.0 and encode
multiplies by 1000.0 and truncates toward zero, both in IEEE binary64
arithmetic; the round-trip recovers each positive integer sample below
`2 ^ 51` only up to truncation of the one-ulp float error — the result is
`x` or `x - 1`, and the loss actually occurs (for example at `x = 1001`). -/
theorem codec_roundtrip_truncation (t : Trace) (xs : List ℤ)
    (hxs : ∀ x ∈ xs, 1 ≤ x ∧ x < 2 ^ 51)
    (h : t.data = xs.map fun x : ℤ => some ((x : ℚ))) :
    ∃ ys : List ℤ,
      (_convert_trace_to_decimal [t]).map _convert_trace_to_int
        = [⟨t.channel, t.starttime, t.delta, ys.map (fun y : ℤ => some ((y : ℚ))), t.meta⟩]
      ∧ ys.length = xs.length
      ∧ List.Forall₂ (fun y x => y = x ∨ y = x - 1) ys xs := by
  refine ⟨xs.map (fun x : ℤ => pyInt (roundF (roundF ((x : ℚ) / 1000) * 1000))), ?_,
    by rw [List.length_map], ?_⟩
  · obtain ⟨ch, st, dl, dta, m⟩ := t
    simp only at h
    subst h
    simp only [_convert_trace_to_decimal, _convert_trace_to_int, List.map_cons, List.map_nil,
      List.map_map]
    rfl
  · rw [List.forall₂_map_left_iff, List.forall₂_same]
    intro x hx
    exact encode_decode_slack x (hxs x hx).1 (hxs x hx).2

/-- Witness for the amended C8 at the sample 1 (which round-trips exactly,
hence satisfies the `x` disjunct). -/
theorem codec_roundtrip_truncation_witness :
    (∀ x ∈ [(1 : ℤ)], 1 ≤ x ∧ x < 2 ^ 51)
  ∧ ∃ ys : List ℤ,
      (_convert_trace_to_decimal [w8a]).map _convert_trace_to_int
        = [⟨w8a.channel, w8a.starttime, w8a.delta, ys.map (fun y : ℤ => some ((y : ℚ))), w8a.meta⟩]
      ∧ ys.length = [(1 : ℤ)].length
      ∧ List.Forall₂ (fun y x => y = x ∨ y = x - 1) ys [(1 : ℤ)] :=
  ⟨by decide, codec_roundtrip_truncation w8a [1] (by decide) (by with_unfolding_all rfl)⟩

/-- Claim C10 counterexample: with the empty-string override and type
variation, `_get_edge_location` does return the empty override, but the
windows of `_put_trace` are sent with the EMPTY location code, not with the
type-derived `"R0"` the claim asserts: the `or` discards the falsy override
only to fall back on the `location` variable, which already holds the same
empty override. -/
theorem empty_override_cx :
    _get_edge_location cfgEmptyLoc (some "BOU") "H" (some "variation") (some "minute") = some ""
  ∧ _put_trace cfgEmptyLoc trM1 (some "BOU") "H" (some "variation") (some "minute") =
      .ok (cxSends, cxSeed)
  ∧ cxSends.map (fun s => s.seedname.location) = [some ""]
  ∧ some "" ≠ some ("R0" : String) :=
  ⟨by with_unfolding_all rfl, by with_unfolding_all rfl, by with_unfolding_all rfl, by simp⟩

/-- Window-loop invariant: when the configured override is the empty string
and the running `location` variable holds the empty string, every emitted
seedname carries the empty location. -/
theorem put_trace_loop_location_const (self : Self) (trace : Trace) (station : Option String)
    (network edge_channel : String) (n : ℕ) (off sr : ℚ) (hl : self.locationCode = some "") :
    ∀ (idxs : List ℕ) (nsamp : ℕ) (t : ℚ) (s : Send),
      s ∈ (_put_trace_loop self trace station network edge_channel n off sr
            idxs (some "") nsamp t).1 →
      s.seedname.location = some "" := by
  intro idxs
  induction idxs with
  | nil => intro nsamp t s hs; simp [_put_trace_loop] at hs
  | cons i rest ih =>
    intro nsamp t s hs
    simp only [_put_trace_loop, hl, pyOr, if_true, ite_true, eq_self_iff_true] at hs
    rcases List.mem_cons.mp hs with h | h
    · rw [h]
    · exact ih _ _ _ h

/-- Claim C10 as amended: when the configured location override is the empty
string, `_get_edge_location` returns the empty override, and the per-window
`self.locationCode or location` in `_put_trace` discards the falsy override
only to fall back on the `location` local, which `_get_edge_location` has
already set to the same empty string — so every window is sent with the
empty location code (the two sites agree; the type-derived code is never
used). -/
theorem empty_override_locations (self : Self) (trace : Trace) (obs : Option String)
    (ch : String) (ty iv : Option String) (sends : List Send) (sd : Seedname)
    (hl : self.locationCode = some "")
    (hp : _put_trace self trace obs ch ty iv = .ok (sends, sd)) :
    _get_edge_location self obs ch ty iv = some ""
  ∧ ∀ s ∈ sends, s.seedname.location = some "" := by
  have hloc : _get_edge_location self obs ch ty iv = some "" := by
    unfold _get_edge_location
    rw [hl]
  refine ⟨hloc, ?_⟩
  unfold _put_trace at hp
  rw [hloc] at hp
  simp only [id_eq] at hp
  split at hp
  case _ e => exact absurd hp (by simp)
  case _ ec hec =>
    split at hp
    case _ e2 => exact absurd hp (by simp)
    case _ nts hnts =>
      split at hp
      case _ sends0 sd0 heq =>
        rw [Except.ok.injEq, Prod.mk.injEq] at hp
        obtain ⟨hs0, -⟩ := hp
        subst hs0
        intro s hs
        refine put_trace_loop_location_const self trace
          (_get_edge_station self obs ch ty iv) (_get_edge_network self obs ch ty iv)
          ec trace.data.length nts.2.1 nts.2.2 hl (xrange0 trace.data.length nts.1)
          nts.1 trace.starttime s ?_
        rw [heq]
        exact hs
      case _ heq2 => exact absurd hp (by simp)

/-- Witness for the amended C10 on the concrete empty-override factory. -/
theorem empty_override_locations_witness :
    (cfgEmptyLoc.locationCode = some ""
      ∧ _put_trace cfgEmptyLoc trM1 (some "BOU") "H" (some "variation") (some "minute") =
          .ok (cxSends, cxSeed))
  ∧ (_get_edge_location cfgEmptyLoc (some "BOU") "H" (some "variation") (some "minute") = some ""
      ∧ ∀ s ∈ cxSends, s.seedname.location = some "") :=
  ⟨⟨rfl, by with_unfolding_all rfl⟩,
   empty_override_locations cfgEmptyLoc trM1 (some "BOU") "H" (some "variation") (some "minute")
     cxSends cxSeed rfl (by with_unfolding_all rfl)⟩

/-- Projection of a send to its (window size, window start time) pair. -/
def sendWindow (s : Send) : ℕ × ℚ := (s.nsamp, s.starttime)

/-- Closed form of the windows the chunker emits for `n` samples with window
bound `N` and per-sample time offset `off`: `⌈n/N⌉` windows, window `j` of
size `min N (n - j*N)` (so every window is at most `N` samples and the last
one is the remainder) starting at `t0 + j*N*off` (the start advances by
samples-sent × timeoffset). -/
def chunkWindows (N : ℕ) (off : ℚ) (n : ℕ) (t0 : ℚ) : List (ℕ × ℚ) :=
  (List.range ((n + N - 1) / N)).map fun j =>
    (min N (n - j * N), t0 + ((j * N : ℕ) : ℚ) * off)

theorem chunk_index_bound (N n i : ℕ) (hN : 0 < N) (hi : i < (n + N - 1) / N) :
    i * N < n := by
  have h1 : i + 1 ≤ (n + N - 1) / N := hi
  have h2 : (i + 1) * N ≤ n + N - 1 := (Nat.le_div_iff_mul_le hN).mp h1
  have h3 : i * N + N ≤ n + N - 1 := by
    calc i * N + N = (i + 1) * N := by ring
    _ ≤ n + N - 1 := h2
  omega

theorem put_trace_loop_sendWindows (self : Self) (trace : Trace) (station : Option String)
    (network edge_channel : String) (n : ℕ) (off sr : ℚ) (N : ℕ) :
    ∀ (j k : ℕ) (loc : Option String) (t : ℚ),
      (∀ i ∈ List.range' k j, i * N < n) →
      (_put_trace_loop self trace station network edge_channel n off sr
          ((List.range' k j).map (· * N)) loc N t).1.map sendWindow
        = (List.range' k j).map
            (fun i => (min N (n - i * N), t + (((i - k) * N : ℕ) : ℚ) * off)) := by
  intro j
  induction j with
  | zero =>
    intro k loc t h
    rfl
  | succ j ih =>
    intro k loc t h
    rw [List.range'_succ]
    have hk : k * N < n := by
      refine h k ?_
      rw [List.range'_succ]
      exact List.mem_cons_self _ _
    have htail : ∀ i ∈ List.range' (k + 1) j, i * N < n := by
      intro i hi
      refine h i ?_
      rw [List.range'_succ]
      exact List.mem_cons_of_mem _ hi
    have hsz : (if n - k * N < N then n else k * N + N) - k * N = min N (n - k * N) := by
      rcases Nat.lt_or_ge (n - k * N) N with hc | hc
      · rw [if_pos hc]
        omega
      · rw [if_neg (Nat.not_lt.mpr hc)]
        omega
    simp only [List.map_cons, _put_trace_loop, hsz, List.cons.injEq]
    constructor
    · simp [sendWindow, Nat.sub_self]
    · cases j with
      | zero => rfl
      | succ j2 =>
        have hk1 : (k + 1) * N < n := by
          refine h (k + 1) ?_
          rw [List.range'_succ]
          refine List.mem_cons_of_mem _ ?_
          rw [List.mem_range'_1]
          omega
        have hmin : min N (n - k * N) = N := by
          have h6 : k * N + N ≤ n := by
            calc k * N + N = (k + 1) * N := by ring
            _ ≤ n := le_of_lt hk1
          omega
        rw [hmin]
        rw [ih (k + 1) (pyOr self.locationCode loc) (t + (N : ℚ) * off) htail]
        refine List.map_congr_left fun i hi => ?_
        rw [List.mem_range'_1] at hi
        have hik : (i - k) * N = (i - (k + 1)) * N + N := by
          have h5 : i - k = (i - (k + 1)) + 1 := by omega
          rw [h5, Nat.succ_mul]
        rw [Prod.mk.injEq]
        refine ⟨rfl, ?_⟩
        rw [hik]
        push_cast
        ring

/-- General window characterization of `_put_trace`: in second mode the bound
is `HOURSECONDS = 3600` with a 1-second offset, in minute mode the bound is
`DAYMINUTES = 1440` with a 60-second offset, and the emitted windows are
exactly `chunkWindows`. -/
theorem put_trace_windows (self : Self) (trace : Trace) (obs : Option String) (ch : String)
    (ty iv : Option String) (sends : List Send) (sd : Seedname) (N : ℕ) (off : ℚ)
    (hmode : (self.interval = some "second" ∧ N = HOURSECONDS ∧ off = 1)
           ∨ (self.interval = some "minute" ∧ N = DAYMINUTES ∧ off = 60))
    (hok : _put_trace self trace obs ch ty iv = .ok (sends, sd)) :
    sends.map sendWindow = chunkWindows N off trace.data.length trace.starttime := by
  have hN : 0 < N := by
    rcases hmode with ⟨-, hN1, -⟩ | ⟨-, hN1, -⟩ <;> rw [hN1] <;>
      norm_num [HOURSECONDS, DAYMINUTES]
  unfold _put_trace at hok
  simp only [id_eq] at hok
  split at hok
  case _ e => exact absurd hok (by simp)
  case _ ec hec =>
    split at hok
    case _ e2 => exact absurd hok (by simp)
    case _ nts hnts =>
      have hnts2 : nts.1 = N ∧ nts.2.1 = off := by
        rcases hmode with ⟨hi, hN1, hoff⟩ | ⟨hi, hN1, hoff⟩ <;>
          simp only [hi] at hnts <;> simp at hnts <;>
          rw [hN1, hoff] <;> simp [← hnts]
      split at hok
      case _ sends0 sd0 heq =>
        rw [Except.ok.injEq, Prod.mk.injEq] at hok
        obtain ⟨hs0, -⟩ := hok
        subst hs0
        have hfst : (_put_trace_loop self trace (_get_edge_station self obs ch ty iv)
            (_get_edge_network self obs ch ty iv) ec trace.data.length nts.2.1 nts.2.2
            (xrange0 trace.data.length nts.1) (_get_edge_location self obs ch ty iv)
            nts.1 trace.starttime).1 = sends0 := by
          rw [heq]
        have hxr : xrange0 trace.data.length N =
            (List.range' 0 ((trace.data.length + N - 1) / N)).map (· * N) := by
          unfold xrange0
          rw [List.range_eq_range']
        have hbound : ∀ i ∈ List.range' 0 ((trace.data.length + N - 1) / N),
            i * N < trace.data.length := by
          intro i hi
          rw [List.mem_range'_1] at hi
          exact chunk_index_bound N trace.data.length i hN (by omega)
        rw [← hfst, hnts2.1, hnts2.2, hxr]
        rw [put_trace_loop_sendWindows self trace _ _ ec trace.data.length off nts.2.2 N
          ((trace.data.length + N - 1) / N) 0 _ trace.starttime hbound]
        simp [chunkWindows, List.range_eq_range']
      case _ heq2 => exact absurd hok (by simp)

/-- Claim C5: a 10000-sample second-rate trace chunks into exactly three
windows of sizes [3600, 3600, 2800] starting at T0, T0+3600 s and T0+7200 s;
and in general (second rate N = 3600 with 1 s offset, minute rate N = 1440
with 60 s offset) every window takes at most N samples, the last window is
the remainder, and each window's start time advances by samples-sent ×
timeoffset (the `chunkWindows` closed form). -/
theorem chunker_windows_spec :
    (∀ (self : Self) (trace : Trace) (obs : Option String) (ch : String)
        (ty iv : Option String) (sends : List Send) (sd : Seedname),
        self.interval = some "second" → trace.data.length = 10000 →
        _put_trace self trace obs ch ty iv = .ok (sends, sd) →
        sends.map sendWindow =
          [(3600, trace.starttime), (3600, trace.starttime + 3600),
           (2800, trace.starttime + 7200)])
  ∧ (∀ (self : Self) (trace : Trace) (obs : Option String) (ch : String)
        (ty iv : Option String) (sends : List Send) (sd : Seedname) (N : ℕ) (off : ℚ),
        ((self.interval = some "second" ∧ N = HOURSECONDS ∧ off = 1)
          ∨ (self.interval = some "minute" ∧ N = DAYMINUTES ∧ off = 60)) →
        _put_trace self trace obs ch ty iv = .ok (sends, sd) →
        sends.map sendWindow = chunkWindows N off trace.data.length trace.starttime) := by
  constructor
  · intro self trace obs ch ty iv sends sd hi hlen hok
    have h := put_trace_windows self trace obs ch ty iv sends sd HOURSECONDS 1
      (Or.inl ⟨hi, rfl, rfl⟩) hok
    rw [h, hlen]
    norm_num [chunkWindows, HOURSECONDS, List.range_succ]
  · intro self trace obs ch ty iv sends sd N off hmode hok
    exact put_trace_windows self trace obs ch ty iv sends sd N off hmode hok

/-- Witness for C5 in minute mode on a two-sample trace (one window of two
samples starting at the trace start). -/
theorem chunker_windows_spec_witness :
    ((cfg0.interval = some "second" ∧ (DAYMINUTES : ℕ) = HOURSECONDS ∧ (60 : ℚ) = 1)
      ∨ (cfg0.interval = some "minute" ∧ (DAYMINUTES : ℕ) = DAYMINUTES ∧ (60 : ℚ) = 60))
  ∧ _put_trace cfg0 trM2 (some "BOU") "H" none (some "minute") = .ok (w5sends, w5seed)
  ∧ w5sends.map sendWindow = chunkWindows DAYMINUTES 60 trM2.data.length trM2.starttime :=
  ⟨Or.inr ⟨rfl, rfl, rfl⟩, by with_unfolding_all rfl,
   chunker_windows_spec.2 cfg0 trM2 (some "BOU") "H" none (some "minute") w5sends w5seed
     DAYMINUTES 60 (Or.inr ⟨rfl, rfl, rfl⟩) (by with_unfolding_all rfl)⟩

end GeomagEdge
